import Mathlib

set_option maxHeartbeats 1000000

/-!
Shallow embedding of the pubmed-paper-fetcher pipeline
(`src/pubmed_fetcher/fetcher.py`, `src/pubmed_fetcher/models.py`) and proofs
about the claims on its specification.

Conventions of the embedding:
* Python `Optional[str]` values become `Option String`; an XML element that may
  be present with optional text content becomes `Option (Option String)`
  (outer layer: element presence, inner layer: its text).
* Python truthiness of a string (`if not s`) is modelled by an explicit
  emptiness test; truthiness of an `xml.etree` element (`e1 or e2`) is modelled
  by `DateElem.isTruthy` (an element is truthy iff it has child elements).
* Exceptions become `Except String` results where the code catches or raises;
  functions whose body cannot raise are total.
* Python `str.lower` is modelled on the ASCII range (all keywords are ASCII).
-/

namespace PubMedFetcher

/-- Python f-string interpolation of an optional string: `None` renders as the
four characters `None`. -/
def pyFStr : Option String → String
  | none => "None"
  | some s => s

/-- ASCII lower-casing, modelling Python `str.lower` on the ASCII range. -/
def strLower (s : String) : String := ⟨s.data.map Char.toLower⟩

/-- Boolean test that `needle` occurs at the head of `hay`. -/
def isLeading : List Char → List Char → Bool
  | [], _ => true
  | _ :: _, [] => false
  | a :: as, b :: bs => a = b && isLeading as bs

/-- Boolean substring test on character lists, modelling the Python `in`
operator on strings. -/
def containsSub (needle : List Char) : List Char → Bool
  | [] => isLeading needle []
  | b :: bs => isLeading needle (b :: bs) || containsSub needle bs

/-- Containment of `sub` in `hay`, Python `sub in hay`. -/
def strContains (hay sub : String) : Bool := containsSub sub.data hay.data

/-- Propositional form of substring containment: `needle` occurs contiguously
inside `hay`. -/
def SubstrOf (needle hay : String) : Prop :=
  ∃ p q, hay.data = p ++ needle.data ++ q

theorem isLeading_iff (n : List Char) : ∀ l, isLeading n l = true ↔ ∃ q, l = n ++ q := by
  induction n with
  | nil => intro l; simp [isLeading]
  | cons a as ih =>
    intro l
    cases l with
    | nil => simp [isLeading]
    | cons b bs =>
      simp only [isLeading, Bool.and_eq_true, decide_eq_true_eq, ih bs]
      constructor
      · rintro ⟨rfl, q, rfl⟩; exact ⟨q, rfl⟩
      · rintro ⟨q, h⟩
        injection h with h1 h2
        exact ⟨h1.symm, q, h2⟩

theorem containsSub_iff (n : List Char) : ∀ l, containsSub n l = true ↔ ∃ p q, l = p ++ n ++ q := by
  intro l
  induction l with
  | nil =>
    simp only [containsSub, isLeading_iff]
    constructor
    · rintro ⟨q, h⟩; exact ⟨[], q, h⟩
    · rintro ⟨p, q, h⟩
      rcases p with _ | ⟨c, cs⟩
      · exact ⟨q, h⟩
      · simp at h
  | cons b bs ih =>
    simp only [containsSub, Bool.or_eq_true, isLeading_iff, ih]
    constructor
    · rintro (⟨q, h⟩ | ⟨p, q, h⟩)
      · exact ⟨[], q, h⟩
      · exact ⟨b :: p, q, by simp [h]⟩
    · rintro ⟨p, q, h⟩
      rcases p with _ | ⟨c, cs⟩
      · exact Or.inl ⟨q, h⟩
      · injection h with h1 h2
        exact Or.inr ⟨cs, q, h2⟩

theorem strContains_iff (hay sub : String) : strContains hay sub = true ↔ SubstrOf sub hay :=
  containsSub_iff sub.data hay.data

/-- Helper for witnesses: a false `List.any` scan refutes every propositional
substring claim over the keyword list. -/
theorem no_keyword_of_any_eq_false {ks : List String} {l : String}
    (h : ks.any (fun k => strContains l k) = false) : ∀ k ∈ ks, ¬ SubstrOf k l := by
  intro k hk hsub
  have hb : strContains l k = true := (strContains_iff l k).mpr hsub
  have := List.any_eq_false.mp h k hk
  simp [hb] at this

/-- Keyword set identifying pharmaceutical/biotech companies, from
`PubMedFetcher.PHARMA_BIOTECH_KEYWORDS` (a Python `set`; membership testing is
order-independent, so a list is a faithful model). -/
def PHARMA_BIOTECH_KEYWORDS : List String :=
  ["pharmaceutical", "pharma", "biotech", "biotechnology", "biopharmaceutical",
   "drug", "therapeutics", "medicine", "clinical", "research", "development",
   "inc", "corp", "corporation", "company", "ltd", "llc", "ag", "gmbh",
   "novartis", "pfizer", "roche", "merck", "johnson", "bristol", "abbvie",
   "gilead", "amgen", "biogen", "celgene", "regeneron", "vertex", "alexion",
   "moderna", "biontech", "illumina", "thermo", "agilent", "waters"]

/-- Keyword set identifying academic institutions, from
`PubMedFetcher.ACADEMIC_KEYWORDS`. -/
def ACADEMIC_KEYWORDS : List String :=
  ["university", "college", "institute", "school", "hospital", "medical center",
   "research center", "laboratory", "lab", "department", "faculty", "academia"]

/-- Embedding of `PubMedFetcher._is_pharmaceutical_biotech_affiliation`.
`none`/`""` model the Python falsy argument (`if not affiliation`). Academic
keywords are checked first and exclude; then industry keywords include. -/
def is_pharmaceutical_biotech_affiliation : Option String → Bool
  | none => false
  | some a =>
    if a = "" then false
    else
      if ACADEMIC_KEYWORDS.any (fun k => strContains (strLower a) k) then false
      else PHARMA_BIOTECH_KEYWORDS.any (fun k => strContains (strLower a) k)

/-- Claim C2: classification returns not-industry on empty or absent input;
whenever the lower-cased input contains an academic keyword as a substring the
result is not-industry, even if an industry keyword is also present; otherwise
the result is industry iff the lower-cased input contains some industry keyword
as a substring. -/
theorem claim_C2 :
    (is_pharmaceutical_biotech_affiliation none = false ∧
      is_pharmaceutical_biotech_affiliation (some "") = false) ∧
    (∀ t : String, (∃ k ∈ ACADEMIC_KEYWORDS, SubstrOf k (strLower t)) →
      is_pharmaceutical_biotech_affiliation (some t) = false) ∧
    (∀ t : String, t ≠ "" →
      (∀ k ∈ ACADEMIC_KEYWORDS, ¬ SubstrOf k (strLower t)) →
      (is_pharmaceutical_biotech_affiliation (some t) = true ↔
        ∃ k ∈ PHARMA_BIOTECH_KEYWORDS, SubstrOf k (strLower t))) := by
  refine ⟨⟨rfl, rfl⟩, ?_, ?_⟩
  · intro t ⟨k, hk, hsub⟩
    by_cases ht : t = ""
    · simp [is_pharmaceutical_biotech_affiliation, ht]
    · have hany : ACADEMIC_KEYWORDS.any (fun k => strContains (strLower t) k) = true :=
        List.any_eq_true.mpr ⟨k, hk, (strContains_iff _ _).mpr hsub⟩
      simp [is_pharmaceutical_biotech_affiliation, ht, hany]
  · intro t ht hnoac
    have hany : ACADEMIC_KEYWORDS.any (fun k => strContains (strLower t) k) = false := by
      apply List.any_eq_false.mpr
      intro k hk
      simp only [Bool.not_eq_true]
      cases hb : strContains (strLower t) k with
      | false => rfl
      | true => exact absurd ((strContains_iff _ _).mp hb) (hnoac k hk)
    have heq : is_pharmaceutical_biotech_affiliation (some t) =
        PHARMA_BIOTECH_KEYWORDS.any (fun k => strContains (strLower t) k) := by
      simp [is_pharmaceutical_biotech_affiliation, ht, hany]
    rw [heq]
    constructor
    · intro hind
      obtain ⟨k, hk, hb⟩ := List.any_eq_true.mp hind
      exact ⟨k, hk, (strContains_iff _ _).mp hb⟩
    · rintro ⟨k, hk, hsub⟩
      exact List.any_eq_true.mpr ⟨k, hk, (strContains_iff _ _).mpr hsub⟩

/-- Witness for C2 at concrete inputs: an affiliation holding both an academic
and an industry keyword classifies as not-industry, and a pure industry
affiliation classifies as industry. -/
theorem claim_C2_witness :
    is_pharmaceutical_biotech_affiliation (some "University-Pfizer Collaboration") = false ∧
    is_pharmaceutical_biotech_affiliation (some "Pfizer Inc.") = true := by
  constructor
  · exact claim_C2.2.1 "University-Pfizer Collaboration"
      ⟨"university", by decide, [], ("-pfizer collaboration").data, by decide⟩
  · exact (claim_C2.2.2 "Pfizer Inc." (by decide)
      (no_keyword_of_any_eq_false (by decide))).mpr
      ⟨"pfizer", by decide, [], (" inc.").data, by decide⟩

/-! ### Email extraction

Embedding of `_extract_email_from_affiliation`, i.e. of the first match of
`re.findall` for the pattern

`\b[A-Za-z0-9._%+-]+@[A-Za-z0-9.-]+\.[A-Z|a-z]{2,}\b`

over the affiliation string. The scan tries every start position from the
left; a single attempt is the usual greedy match with backtracking over the
domain/dot split and the TLD length. Note two literal features of the source
pattern: the `\b` anchors at both ends, and the TLD class `[A-Z|a-z]`, which
contains the bar character. `\w` for `\b` is modelled on the ASCII range. -/

def isAsciiLetter (c : Char) : Bool := ('A' ≤ c && c ≤ 'Z') || ('a' ≤ c && c ≤ 'z')

def isAsciiDigit (c : Char) : Bool := '0' ≤ c && c ≤ '9'

/-- Character class of the local part: `[A-Za-z0-9._%+-]`. -/
def localC (c : Char) : Bool :=
  isAsciiLetter c || isAsciiDigit c || c = '.' || c = '_' || c = '%' || c = '+' || c = '-'

/-- Character class of the domain part: `[A-Za-z0-9.-]`. -/
def domainC (c : Char) : Bool := isAsciiLetter c || isAsciiDigit c || c = '.' || c = '-'

/-- Character class of the TLD part: `[A-Z|a-z]`, literally containing the
bar character. -/
def tldC (c : Char) : Bool := isAsciiLetter c || c = '|'

/-- Word character for the `\b` anchor. -/
def wordC (c : Char) : Bool := isAsciiLetter c || isAsciiDigit c || c = '_'

def isWordOpt : Option Char → Bool
  | none => false
  | some c => wordC c

/-- Word-boundary (`\b`) test between two adjacent positions, given the
characters on either side (`none` at the ends of the input). -/
def boundaryB (prev next : Option Char) : Bool := isWordOpt prev != isWordOpt next

/-- Backtracking search for the TLD length: `[A-Z|a-z]{2,}` is greedy and then
gives characters back until the final `\b` holds. `t` is the maximal run of
TLD-class characters at the start of `rem`; the argument is the candidate
length, tried longest first, stopping at the minimum 2. -/
def tryTldLen (t rem : List Char) : Nat → Option Nat
  | 0 => none
  | 1 => none
  | n + 2 =>
    if boundaryB (some (t.getD (n + 1) ' ')) ((rem.drop (n + 2)).head?) then some (n + 2)
    else tryTldLen t rem (n + 1)

/-- TLD match at the start of `rem`: greedy run, then backtrack for `\b`. -/
def tryTld (rem : List Char) : Option Nat :=
  tryTldLen (rem.takeWhile tldC) rem (rem.takeWhile tldC).length

/-- Backtracking search for the domain/dot split in the text `rest3` after the
`@`: the greedy `[A-Za-z0-9.-]+` gives characters back until a literal dot and
a TLD match follow. The argument is the candidate domain length, tried longest
first; a candidate needs its domain characters in class, the dot right after,
and a TLD match after the dot. Returns the domain length and TLD length. -/
def tryDomainFrom (rest3 : List Char) : Nat → Option (Nat × Nat)
  | 0 => none
  | j + 1 =>
    if (rest3.take (j + 1)).all domainC && rest3.getD (j + 1) ' ' = '.' then
      match tryTld (rest3.drop (j + 2)) with
      | some tl => some (j + 1, tl)
      | none => tryDomainFrom rest3 j
    else tryDomainFrom rest3 j

/-- One anchored attempt of the email regex at a fixed position: `prev` is the
character before the position, `rest` the input from the position on. The
local part takes its maximal run (no backtracking is possible since `@` is not
in the local class). Returns the matched characters or `none`. -/
def tryMatch (prev : Option Char) (rest : List Char) : Option (List Char) :=
  if boundaryB prev rest.head? = false then none
  else
    let l := rest.takeWhile localC
    if l = [] then none
    else
      match rest.drop l.length with
      | '@' :: rest3 =>
        match tryDomainFrom rest3 rest3.length with
        | none => none
        | some (j, tl) =>
          some (l ++ '@' :: (rest3.take j ++ '.' :: (rest3.drop (j + 1)).take tl))
      | _ => none

/-- Attempt of the email regex starting at character position `i` of `s`. -/
def matchAtPos (s : List Char) (i : Nat) : Option (List Char) :=
  tryMatch (match i with | 0 => none | n + 1 => s.get? n) (s.drop i)

/-- First match of the email regex over the whole input: `re.findall` scans
start positions from the left, so the head of its result is the match at the
leftmost feasible position. -/
def findFirstEmail (s : List Char) : Option (List Char) :=
  (List.range (s.length + 1)).findSome? (fun i => matchAtPos s i)

/-- Embedding of `PubMedFetcher._extract_email_from_affiliation`: `None` on a
falsy argument, else the first regex match if any. -/
def extract_email_from_affiliation (affiliation : String) : Option String :=
  if affiliation = "" then none
  else (findFirstEmail affiliation.data).map (fun l => ⟨l⟩)

theorem tryMatch_nil (prev : Option Char) : tryMatch prev [] = none := by
  simp [tryMatch]

theorem matchAtPos_of_le {s : List Char} {i : Nat} (h : s.length ≤ i) :
    matchAtPos s i = none := by
  unfold matchAtPos
  rw [List.drop_eq_nil_of_le h]
  exact tryMatch_nil _

theorem range_findSome?_eq_some {α : Type} {f : Nat → Option α} {N : Nat} {b : α}
    (h : (List.range N).findSome? f = some b) :
    ∃ i, f i = some b ∧ ∀ j < i, f j = none := by
  obtain ⟨l₁, a, l₂, hdec, hfa, hnone⟩ := List.findSome?_eq_some_iff.mp h
  have hlen : l₁.length < N := by
    have := congrArg List.length hdec
    simp only [List.length_range, List.length_append, List.length_cons] at this
    omega
  have ha : a = l₁.length := by
    have h1 : (List.range N)[l₁.length]? = some a := by
      rw [hdec, List.getElem?_append_right (Nat.le_refl _)]
      simp
    have h2 : (List.range N)[l₁.length]? = some l₁.length := by
      simp [List.getElem?_range hlen]
    rw [h1] at h2
    exact Option.some_inj.mp h2
  refine ⟨a, hfa, ?_⟩
  intro j hj
  apply hnone
  have hjlen : j < l₁.length := ha ▸ hj
  have h2 : l₁[j]? = some j := by
    have hr : (List.range N)[j]? = some j := by
      simp [List.getElem?_range (by omega : j < N)]
    rw [hdec, List.getElem?_append_left hjlen] at hr
    exact hr
  exact List.getElem?_mem h2

/-- Modelled from the claim wording of C6 ("the first substring of s matching
the email pattern: local-part `[A-Za-z0-9._%+-]+`, `@`, domain with at least
one dot, TLD of 2+ letters"): the same scan without the `\b` anchors of the
source pattern and with a letters-only TLD class. -/
def tryTldClaim (rem : List Char) : Option Nat :=
  if 2 ≤ (rem.takeWhile isAsciiLetter).length then some (rem.takeWhile isAsciiLetter).length
  else none

/-- Domain/dot backtracking for the claim-side pattern. -/
def tryDomainFromClaim (rest3 : List Char) : Nat → Option (Nat × Nat)
  | 0 => none
  | j + 1 =>
    if (rest3.take (j + 1)).all domainC && rest3.getD (j + 1) ' ' = '.' then
      match tryTldClaim (rest3.drop (j + 2)) with
      | some tl => some (j + 1, tl)
      | none => tryDomainFromClaim rest3 j
    else tryDomainFromClaim rest3 j

/-- One attempt of the claim-side pattern at a fixed position. -/
def tryMatchClaim (rest : List Char) : Option (List Char) :=
  let l := rest.takeWhile localC
  if l = [] then none
  else
    match rest.drop l.length with
    | '@' :: rest3 =>
      match tryDomainFromClaim rest3 rest3.length with
      | none => none
      | some (j, tl) =>
        some (l ++ '@' :: (rest3.take j ++ '.' :: (rest3.drop (j + 1)).take tl))
    | _ => none

/-- First match of the claim-side pattern (leftmost scan). -/
def extract_email_claimed (s : String) : Option String :=
  ((List.range (s.data.length + 1)).findSome? (fun i => tryMatchClaim (s.data.drop i))).map
    (fun l => ⟨l⟩)

/-- Counterexample to C6 as stated: on the input `..a@b.cd` the code returns
`a@b.cd` (the `\b` anchor of the source pattern rejects the starts at the two
dots), while the first substring matching the claimed pattern is `..a@b.cd`
(dots are legal local-part characters). So the result is not the first
substring of the input matching the claimed email pattern. -/
theorem claim_C6_counterexample :
    extract_email_from_affiliation "..a@b.cd" = some "a@b.cd" ∧
    extract_email_claimed "..a@b.cd" = some "..a@b.cd" ∧
    extract_email_from_affiliation "..a@b.cd" ≠ extract_email_claimed "..a@b.cd" := by
  refine ⟨by decide, by decide, by decide⟩

/-- Claim C6 (amended): `extract_email` returns the match of the source
pattern — with its `\b` word-boundary anchors and its TLD class `[A-Z|a-z]`
literally containing the bar — at the leftmost feasible start position, and
`none` exactly when no start position admits a match; only the first match is
used even if multiple emails appear. -/
theorem claim_C6_amended (s : String) :
    (extract_email_from_affiliation s = none ↔ ∀ i, matchAtPos s.data i = none) ∧
    (∀ e, extract_email_from_affiliation s = some e →
      ∃ i, matchAtPos s.data i = some e.data ∧ ∀ j < i, matchAtPos s.data j = none) := by
  constructor
  · by_cases hs : s = ""
    · subst hs
      constructor
      · intro _ i
        exact matchAtPos_of_le (by simp)
      · intro _
        decide
    · simp only [extract_email_from_affiliation, if_neg hs, Option.map_eq_none']
      unfold findFirstEmail
      rw [List.findSome?_eq_none_iff]
      constructor
      · intro h i
        by_cases hi : i < s.data.length + 1
        · exact h i (List.mem_range.mpr hi)
        · exact matchAtPos_of_le (by omega)
      · intro h i _
        exact h i
  · intro e he
    have hs : s ≠ "" := by
      intro h
      rw [h] at he
      simp [extract_email_from_affiliation] at he
    rw [extract_email_from_affiliation, if_neg hs] at he
    obtain ⟨l, hl, hmk⟩ := Option.map_eq_some'.mp he
    have hide : e.data = l := by rw [← hmk]
    obtain ⟨i, hfi, hnone⟩ := range_findSome?_eq_some hl
    exact ⟨i, hide ▸ hfi, hnone⟩

/-- Witness for C6 at the spec's concrete example: the email is found at a
position left of which no match starts. -/
theorem claim_C6_witness :
    ∃ i, matchAtPos ("Pfizer Inc., New York, NY. john.doe@pfizer.com").data i =
        some ("john.doe@pfizer.com").data ∧
      ∀ j < i, matchAtPos ("Pfizer Inc., New York, NY. john.doe@pfizer.com").data j = none :=
  (claim_C6_amended "Pfizer Inc., New York, NY. john.doe@pfizer.com").2
    "john.doe@pfizer.com" (by decide)

/-! ### Publication date extraction

Embedding of `_extract_publication_date`. XML elements that may be present
with optional text are `Option (Option String)`. A present element is chosen
through the Python `or` chain, whose truthiness test on `xml.etree` elements
is `len(children) != 0` — a present but childless element is falsy. -/

/-- Whitespace stripped by Python `int(str)`. -/
def pyWs (c : Char) : Bool :=
  c = ' ' || c = '\t' || c = '\n' || c = '\r' || c = '\x0b' || c = '\x0c'

/-- Decimal digit-string value, `none` when empty or holding a non-digit. -/
def digitsVal : List Char → Option Nat
  | [] => none
  | ds =>
    if ds.all isAsciiDigit then
      some (ds.foldl (fun a c => a * 10 + (c.toNat - 48)) 0)
    else none

/-- Model of Python `int(str)`: strip surrounding whitespace, one optional
sign, decimal digits. (Python additionally accepts underscores between digits
and non-ASCII digits; no claim depends on those.) -/
def pyInt (s : String) : Option Int :=
  match ((s.data.dropWhile pyWs).reverse.dropWhile pyWs).reverse with
  | [] => none
  | '+' :: ds => (digitsVal ds).map (fun n => (n : Int))
  | '-' :: ds => (digitsVal ds).map (fun n => -(n : Int))
  | ds => (digitsVal ds).map (fun n => (n : Int))

/-- A successfully constructed `datetime` value (date part). -/
structure PyDate where
  year : Int
  month : Int
  day : Int
  deriving DecidableEq, Repr

/-- Gregorian leap-year rule of Python `datetime`. -/
def isLeapYear (y : Int) : Bool := (y % 4 = 0 && y % 100 != 0) || y % 400 = 0

def daysInMonth (y m : Int) : Int :=
  if m = 2 then (if isLeapYear y then 29 else 28)
  else if m = 4 || m = 6 || m = 9 || m = 11 then 30
  else 31

/-- Model of the `datetime(year, month, day)` constructor: `some` on a valid
date (MINYEAR = 1, MAXYEAR = 9999), `none` models the raised ValueError,
which the enclosing handler turns into an absent date. -/
def mkDatetime (y m d : Int) : Option PyDate :=
  if 1 ≤ y && y ≤ 9999 && 1 ≤ m && m ≤ 12 && 1 ≤ d && d ≤ daysInMonth y m then
    some ⟨y, m, d⟩
  else none

/-- One XML date element (`PubDate`, `DateRevised` or `DateCompleted`):
presence and text of its `Year`, `Month`, `Day` children, plus a flag for any
further child elements (only relevant to Python element truthiness). -/
structure DateElem where
  year : Option (Option String)
  month : Option (Option String)
  day : Option (Option String)
  extraChildren : Bool
  deriving DecidableEq, Repr

/-- Python truthiness of an `xml.etree` element: true iff it has children. -/
def DateElem.isTruthy (d : DateElem) : Bool :=
  d.year.isSome || d.month.isSome || d.day.isSome || d.extraChildren

/-- The date-bearing part of one article record: the first `.//PubDate`,
`.//DateRevised` and `.//DateCompleted` descendants, when present. -/
structure ArticleDates where
  pubDate : Option DateElem
  dateRevised : Option DateElem
  dateCompleted : Option DateElem
  deriving DecidableEq, Repr

/-- Python `x or y` over optional elements: `x` when present and truthy,
otherwise `y` (both `None` and a childless element fall through). -/
def pyOrElem (x y : Option DateElem) : Option DateElem :=
  match x with
  | some d => if d.isTruthy then some d else y
  | none => y

/-- The month-name table of `_extract_publication_date`. -/
def month_names : List (String × Int) :=
  [("jan", 1), ("feb", 2), ("mar", 3), ("apr", 4), ("may", 5), ("jun", 6),
   ("jul", 7), ("aug", 8), ("sep", 9), ("oct", 10), ("nov", 11), ("dec", 12)]

/-- Month value from the text of a present `Month` element: `int` parse first;
a Python ValueError falls back to the table, keyed by the lower-cased first
three characters, defaulting to 1. Text `None` makes `int(None)` raise
TypeError — not the caught ValueError — so it escapes to the outer handler
and the whole date becomes absent (`none` here). -/
def monthFromElem : Option String → Option Int
  | none => none
  | some mt =>
    match pyInt mt with
    | some m => some m
    | none =>
      some (((month_names.find? (fun p => p.1 = (⟨(strLower mt).data.take 3⟩ : String))).map
        Prod.snd).getD 1)

/-- Day value from the text of a present `Day` element: like the month, text
`None` raises TypeError and kills the whole date; a ValueError defaults to 1. -/
def dayFromElem : Option String → Option Int
  | none => none
  | some dt =>
    match pyInt dt with
    | some d => some d
    | none => some 1

/-- Year/month/day logic of `_extract_publication_date` applied to the chosen
date element: `Year` is mandatory, and every exception caught by the
surrounding handler yields `none`. -/
def dateFromElem (d : DateElem) : Option PyDate :=
  match d.year with
  | none => none
  | some none => none
  | some (some yt) =>
    match pyInt yt with
    | none => none
    | some y =>
      match (match d.month with | none => some 1 | some mt => monthFromElem mt) with
      | none => none
      | some m =>
        match (match d.day with | none => some 1 | some dt => dayFromElem dt) with
        | none => none
        | some dd => mkDatetime y m dd

/-- Embedding of `PubMedFetcher._extract_publication_date`: the element is
chosen by the Python `or` chain over the three finds, then read by
`dateFromElem`. -/
def extract_publication_date (a : ArticleDates) : Option PyDate :=
  match pyOrElem (pyOrElem a.pubDate a.dateRevised) a.dateCompleted with
  | none => none
  | some d => dateFromElem d

/-- First present-and-truthy element, in priority order. -/
def firstTruthy : List (Option DateElem) → Option DateElem
  | [] => none
  | none :: rest => firstTruthy rest
  | some d :: rest => if d.isTruthy then some d else firstTruthy rest

/-- The amended selection rule: the first date field that is present and has
at least one child element is used; childless elements are skipped. -/
def extract_publication_date_amended (a : ArticleDates) : Option PyDate :=
  match firstTruthy [a.pubDate, a.dateRevised, a.dateCompleted] with
  | none => none
  | some d => dateFromElem d

/-- Modelled from the claim wording of C5 ("tries the date fields in fixed
priority order and uses the first one present"): selection by presence alone. -/
def extract_publication_date_firstPresent (a : ArticleDates) : Option PyDate :=
  match a.pubDate with
  | some d => dateFromElem d
  | none =>
    match a.dateRevised with
    | some d => dateFromElem d
    | none =>
      match a.dateCompleted with
      | some d => dateFromElem d
      | none => none

theorem dateFromElem_of_not_truthy {d : DateElem} (h : d.isTruthy = false) :
    dateFromElem d = none := by
  have hy : d.year = none := by
    unfold DateElem.isTruthy at h
    simp only [Bool.or_eq_false_iff] at h
    exact Option.not_isSome_iff_eq_none.mp (by simp [h.1.1.1])
  simp [dateFromElem, hy]

/-- Counterexample to C5 as stated: here `PubDate` is present but childless,
so the Python `or` chain (element truthiness = has children) skips it and uses
`DateRevised`, producing the date 2020-01-01 — while using "the first one
present" (`PubDate`, which lacks a `Year`) would produce no date. -/
theorem claim_C5_counterexample :
    extract_publication_date
        ⟨some ⟨none, none, none, false⟩,
         some ⟨some (some "2020"), none, none, false⟩, none⟩ =
      some ⟨2020, 1, 1⟩ ∧
    extract_publication_date_firstPresent
        ⟨some ⟨none, none, none, false⟩,
         some ⟨some (some "2020"), none, none, false⟩, none⟩ = none := by
  refine ⟨by decide, by decide⟩

/-- Claim C5 (amended): the date fields are tried in the fixed priority order
PubDate, DateRevised, DateCompleted, and the first one that is present AND has
at least one child element is used (a childless element is falsy in the
Python `or` chain and is skipped); the result is `none` when no field
qualifies, when the chosen element lacks a `Year`, when a `Year`, `Month` or
`Day` text triggers an exception (in particular a present `Month` or `Day`
with no text), or when the constructed date is invalid; a numeric month is
used directly, a non-numeric month is looked up by its lower-cased first
three characters in the Jan-Dec table with default 1, and a non-numeric day
defaults to 1. -/
theorem claim_C5_amended (a : ArticleDates) :
    extract_publication_date a = extract_publication_date_amended a := by
  rcases a with ⟨p, r, c⟩
  unfold extract_publication_date extract_publication_date_amended
  rcases p with _ | dp <;> rcases r with _ | dr <;> rcases c with _ | dc <;>
    simp only [pyOrElem, firstTruthy] <;>
    (try cases htp : dp.isTruthy) <;> (try cases htr : dr.isTruthy) <;>
    (try cases htc : dc.isTruthy) <;>
    simp_all [pyOrElem, firstTruthy, dateFromElem_of_not_truthy]

/-! ### Authors and article parsing -/

/-- One `Author` XML element as consumed by `_extract_authors`: presence and
text of `LastName`, `ForeName`, `CollectiveName`, and of the first
`.//Affiliation` descendant. -/
structure AuthorElem where
  lastName : Option (Option String)
  foreName : Option (Option String)
  collectiveName : Option (Option String)
  affiliation : Option (Option String)
  deriving DecidableEq, Repr

/-- The in-memory `Author` dataclass. The name can be Python `None` when it is
taken verbatim from an element without text; the f-string only forces a string
when a fore name element is present. -/
structure Author where
  name : Option String
  affiliation : Option String
  email : Option String
  is_corresponding : Bool
  deriving DecidableEq, Repr

/-- Body of the author loop of `_extract_authors`: `none` models the
`continue` for an entry with neither family nor collective name. With a
family name the name is its text — `None` included — and a fore name turns it
into the f-string of the two texts. The email comes from the truthy
affiliation, and corresponding status is simply having an email. -/
def extract_author (ae : AuthorElem) : Option Author :=
  match
    (match ae.lastName with
     | some lt =>
       some (match ae.foreName with
             | some ft => some (pyFStr ft ++ " " ++ pyFStr lt)
             | none => lt)
     | none =>
       match ae.collectiveName with
       | some ct => some ct
       | none => none)
  with
  | none => none
  | some nm =>
    let aff : Option String := match ae.affiliation with | some t => t | none => none
    let email : Option String :=
      match aff with
      | some a => if a = "" then none else extract_email_from_affiliation a
      | none => none
    some ⟨nm, aff, email, email.isSome⟩

/-- Embedding of `PubMedFetcher._extract_authors`: empty without an
`AuthorList` element, else the per-entry loop in document order. -/
def extract_authors (al : Option (List AuthorElem)) : List Author :=
  match al with
  | none => []
  | some l => l.filterMap extract_author

/-- One `PubmedArticle` record as consumed by `_parse_article`. -/
structure Article where
  pmid : Option (Option String)
  articleTitle : Option (Option String)
  dates : ArticleDates
  authorList : Option (List AuthorElem)
  deriving DecidableEq, Repr

/-- The `PaperResult` dataclass. Fields annotated `str` in the source can
still hold Python `None` at runtime; they are `Option String` here. -/
structure PaperResult where
  pubmed_id : Option String
  title : Option String
  publication_date : Option PyDate
  authors : List Author
  non_academic_authors : List (Option String)
  company_affiliations : List String
  corresponding_author_email : Option String
  deriving DecidableEq, Repr

/-- The filter-loop condition
`author.affiliation and self._is_pharmaceutical_biotech_affiliation(...)`:
a falsy affiliation short-circuits, else the classifier decides. -/
def authorQualifies (a : Author) : Bool :=
  match a.affiliation with
  | none => false
  | some s => if s = "" then false else is_pharmaceutical_biotech_affiliation (some s)

/-- The loop condition `author.is_corresponding and author.email`. -/
def authorCorresponding (a : Author) : Bool :=
  a.is_corresponding && (match a.email with | some e => e != "" | none => false)

/-- One iteration of the author filter loop of `_parse_article` on the state
(industry author names, industry affiliations, corresponding email): a
qualifying author appends name and affiliation; a corresponding author with an
email overwrites the email (last write wins). -/
def parseStep (st : List (Option String) × List String × Option String) (a : Author) :
    List (Option String) × List String × Option String :=
  let st1 :=
    if authorQualifies a then
      (st.1 ++ [a.name], st.2.1 ++ [a.affiliation.getD ""], st.2.2)
    else st
  if authorCorresponding a then (st1.1, st1.2.1, a.email) else st1

/-- Admissible enumeration orders of a Python `set` of strings:
`list(set(xs))` lists the distinct elements of `xs` in an order chosen by the
interpreter — string hashing is randomized per process — i.e. in some
permutation of a fixed deduplication. -/
def ValidSetEnum (e : List String → List String) : Prop :=
  ∀ l, List.Perm (e l) l.dedup

/-- Embedding of `PubMedFetcher._parse_article`, parameterized by the set
enumeration order `e` used by `list(set(company_affiliations))`. `none`
models both the discarded paper (no industry author) and the caught
AttributeError when the mandatory PMID element is missing. -/
def parse_article (e : List String → List String) (art : Article) : Option PaperResult :=
  match art.pmid with
  | none => none
  | some pmidText =>
    let title : Option String :=
      match art.articleTitle with
      | some t => t
      | none => some "No title"
    let pub_date := extract_publication_date art.dates
    let authors := extract_authors art.authorList
    let st := authors.foldl parseStep ([], [], none)
    if st.1 = [] then none
    else some ⟨pmidText, title, pub_date, authors, st.1, e st.2.1, st.2.2⟩

/-- The final corresponding email of the loop: last write wins. -/
def corrFold (authors : List Author) (init : Option String) : Option String :=
  authors.foldl (fun acc a => if authorCorresponding a then a.email else acc) init

theorem foldl_parseStep (authors : List Author) : ∀ st,
    authors.foldl parseStep st =
      (st.1 ++ (authors.filter authorQualifies).map Author.name,
       st.2.1 ++ (authors.filter authorQualifies).map (fun a => a.affiliation.getD ""),
       corrFold authors st.2.2) := by
  induction authors with
  | nil => intro st; simp [corrFold]
  | cons a rest ih =>
    intro st
    simp only [List.foldl_cons, ih, List.filter_cons, corrFold, List.foldl_cons]
    cases hq : authorQualifies a <;> cases hc : authorCorresponding a <;>
      simp [parseStep, hq, hc, corrFold]

/-! ### Search, batched detail fetch, pipeline, CSV -/

/-- One `Id` element of the search response. -/
structure IdElem where
  text : Option String
  deriving DecidableEq, Repr

/-- The parsed search response: the `IdList` element, when present, with its
`Id` children in document order. -/
structure SearchResp where
  idList : Option (List IdElem)
  deriving DecidableEq, Repr

/-- Embedding of `PubMedFetcher.search_papers`: a transport failure
(`requests.RequestException`) and a body-parse failure (`ET.ParseError`) are
wrapped and re-raised — no retry, no fallback; an absent `IdList` yields the
empty list; otherwise each `Id` element contributes its text — possibly
Python `None` — in document order. The single network exchange is the
`fetchResult` argument; the body parse is the `parseResp` argument. -/
def search_papers (fetchResult : Except String String)
    (parseResp : String → Except String SearchResp) : Except String (List (Option String)) :=
  match fetchResult with
  | Except.error e => Except.error ("Error searching PubMed: " ++ e)
  | Except.ok body =>
    match parseResp body with
    | Except.error e => Except.error ("Error parsing search results: " ++ e)
    | Except.ok resp =>
      match resp.idList with
      | none => Except.ok []
      | some ids => Except.ok (ids.map IdElem.text)

/-- The per-article loop of `_fetch_batch_details`: each article is parsed
inside its own handler — a raised per-article error or a `None` parse result
drops the article and the loop continues with the rest. -/
def processBatchItems {α : Type} (p : α → Except String (Option PaperResult)) :
    List α → List PaperResult
  | [] => []
  | a :: rest =>
    match p a with
    | Except.error _ => processBatchItems p rest
    | Except.ok none => processBatchItems p rest
    | Except.ok (some r) => r :: processBatchItems p rest

/-- Embedding of `PubMedFetcher._fetch_batch_details`: a transport failure
and a top-level response-parse failure are wrapped and re-raised for the
whole batch — no retry, no skipping — while per-article failures are
absorbed by `processBatchItems`. -/
def fetch_batch_details {α : Type} (transport : Except String String)
    (parseResp : String → Except String (List α))
    (p : α → Except String (Option PaperResult)) : Except String (List PaperResult) :=
  match transport with
  | Except.error e => Except.error ("Error fetching paper details: " ++ e)
  | Except.ok body =>
    match parseResp body with
    | Except.error e => Except.error ("Error parsing paper details: " ++ e)
    | Except.ok arts => Except.ok (processBatchItems p arts)

/-- The consecutive batches `paper_ids[i:i+50]` visited by the loop
`for i in range(0, len(paper_ids), 50)` of `fetch_paper_details`
(the last batch may be smaller). -/
def chunks50 {ι : Type} : List ι → List (List ι)
  | [] => []
  | a :: rest => ((a :: rest).take 50) :: chunks50 ((a :: rest).drop 50)
termination_by l => l.length
decreasing_by
  simp only [List.length_drop, List.length_cons]
  omega

/-- Externally visible events of `fetch_paper_details`: one request per batch
and the fixed `time.sleep(0.5)` pauses. -/
inductive FetchEv (ι : Type) where
  | batchReq (batch : List ι)
  | sleepPause (seconds : ℚ)
  deriving DecidableEq

/-- The batch of a request event. -/
def FetchEv.reqBatch {ι : Type} : FetchEv ι → Option (List ι)
  | FetchEv.batchReq b => some b
  | FetchEv.sleepPause _ => none

def isPauseEv {ι : Type} : FetchEv ι → Bool
  | FetchEv.batchReq _ => false
  | FetchEv.sleepPause _ => true

def numBatchReqs {ι : Type} (tr : List (FetchEv ι)) : Nat :=
  tr.countP (fun ev => (FetchEv.reqBatch ev).isSome)

def numPauses {ι : Type} (tr : List (FetchEv ι)) : Nat := tr.countP isPauseEv

/-- Request/pause trace of `fetch_paper_details`: empty input issues nothing;
otherwise one request per batch, and a `time.sleep(0.5)` after a batch exactly
when `i + batch_size < len(paper_ids)` — i.e. between consecutive batches and
never after the last. -/
def fetchDetailsTrace {ι : Type} : List ι → List (FetchEv ι)
  | [] => []
  | a :: rest =>
    FetchEv.batchReq ((a :: rest).take 50) ::
      (if 50 < (a :: rest).length then
        FetchEv.sleepPause (1 / 2) :: fetchDetailsTrace ((a :: rest).drop 50)
      else [])
termination_by l => l.length
decreasing_by
  simp only [List.length_drop, List.length_cons]
  omega

/-- Result accumulation of `fetch_paper_details`, with the per-batch exchange
abstracted as `fb`: batch results are concatenated in batch order. -/
def fetch_paper_details_model {ι : Type} (fb : List ι → List PaperResult) :
    List ι → List PaperResult
  | [] => []
  | a :: rest =>
    fb ((a :: rest).take 50) ++ fetch_paper_details_model fb ((a :: rest).drop 50)
termination_by l => l.length
decreasing_by
  simp only [List.length_drop, List.length_cons]
  omega

/-- Embedding of `PubMedFetcher.fetch_papers`, with the external service
abstracted as `respond`, mapping a batch of identifiers to the article
records of its response (within-batch service order), each parsed by
`parse_article`: an empty search result short-circuits; otherwise the batched
detail fetch runs and kept papers accumulate in encounter order. -/
def fetch_papers_model {ι : Type} (e : List String → List String)
    (ids : List ι) (respond : List ι → List Article) : List PaperResult :=
  if ids.isEmpty then []
  else fetch_paper_details_model (fun b => (respond b).filterMap (parse_article e)) ids

/-- Python `"; ".join(xs)` where entries may be `None`: a `None` entry raises
TypeError (`none` result), otherwise the plain join. -/
def pyJoin (sep : String) : List (Option String) → Option String
  | [] => some ""
  | [some s] => some s
  | some s :: rest => (pyJoin sep rest).map (fun r => s ++ sep ++ r)
  | none :: _ => none

def pad2 (n : Int) : String := if n < 10 then "0" ++ toString n else toString n

/-- `strftime("%Y-%m-%d")` on the optional date: empty string when absent
(glibc prints the year unpadded; month and day are zero-padded). -/
def formatDate : Option PyDate → String
  | none => ""
  | some d => toString d.year ++ "-" ++ pad2 d.month ++ "-" ++ pad2 d.day

/-- One emitted CSV row of `PaperResult.to_csv_row` (dict values in field
order). -/
structure CsvRow where
  pubmedID : Option String
  title : Option String
  publicationDate : String
  nonAcademicAuthors : String
  companyAffiliations : String
  correspondingEmail : String
  deriving DecidableEq, Repr

/-- Embedding of `PaperResult.to_csv_row`; `none` models the TypeError raised
by the join when a kept author name is Python `None`. -/
def to_csv_row (p : PaperResult) : Option CsvRow :=
  match pyJoin "; " p.non_academic_authors with
  | none => none
  | some na =>
    some ⟨p.pubmed_id, p.title, formatDate p.publication_date, na,
      String.intercalate "; " p.company_affiliations,
      p.corresponding_author_email.getD ""⟩

/-! ### Support lemmas on batching and the pipeline -/

theorem processBatchItems_append {α : Type} (p : α → Except String (Option PaperResult)) :
    ∀ l1 l2, processBatchItems p (l1 ++ l2) =
      processBatchItems p l1 ++ processBatchItems p l2 := by
  intro l1 l2
  induction l1 with
  | nil => simp [processBatchItems]
  | cons a rest ih =>
    simp only [List.cons_append, processBatchItems]
    cases p a with
    | error e => simpa using ih
    | ok r =>
      cases r with
      | none => simpa using ih
      | some x => simp [ih]

theorem chunks50_eq_nil_iff {ι : Type} (l : List ι) : chunks50 l = [] ↔ l = [] := by
  cases l with
  | nil => simp [chunks50]
  | cons a rest => simp [chunks50]

theorem chunks50_flatten {ι : Type} : ∀ l : List ι, (chunks50 l).flatten = l := by
  intro l
  induction l using chunks50.induct with
  | case1 => simp [chunks50]
  | case2 a rest ih =>
    rw [chunks50]
    simp only [List.flatten_cons, ih]
    exact List.take_append_drop 50 (a :: rest)

theorem chunks50_mem {ι : Type} : ∀ (l : List ι) (b : List ι), b ∈ chunks50 l →
    b ≠ [] ∧ b.length ≤ 50 := by
  intro l
  induction l using chunks50.induct with
  | case1 => simp [chunks50]
  | case2 a rest ih =>
    intro b hb
    rw [chunks50] at hb
    rcases List.mem_cons.mp hb with h | h
    · subst h
      refine ⟨by simp, ?_⟩
      simp [List.length_take]
    · exact ih b h

theorem chunks50_getD_length {ι : Type} : ∀ (l : List ι) (i : Nat),
    i + 1 < (chunks50 l).length → ((chunks50 l).getD i []).length = 50 := by
  intro l
  induction l using chunks50.induct with
  | case1 => simp [chunks50]
  | case2 a rest ih =>
    intro i hi
    rw [chunks50] at hi ⊢
    cases i with
    | zero =>
      have hne : chunks50 ((a :: rest).drop 50) ≠ [] := by
        intro h
        rw [h] at hi
        simp at hi
      have hdrop : (a :: rest).drop 50 ≠ [] := by
        intro h
        exact hne ((chunks50_eq_nil_iff _).mpr h)
      have hlen : 50 < (a :: rest).length := by
        by_contra hle
        exact hdrop (List.drop_eq_nil_of_le (by omega))
      rw [List.getD_cons_zero, List.length_take]
      omega
    | succ j =>
      rw [List.getD_cons_succ]
      apply ih
      simp only [List.length_cons] at hi
      omega

theorem fetchDetailsTrace_reqs {ι : Type} : ∀ l : List ι,
    (fetchDetailsTrace l).filterMap FetchEv.reqBatch = chunks50 l := by
  intro l
  induction l using chunks50.induct with
  | case1 => simp [fetchDetailsTrace, chunks50]
  | case2 a rest ih =>
    rw [fetchDetailsTrace, chunks50]
    by_cases h : 50 < (a :: rest).length
    · rw [if_pos h]
      simp only [List.filterMap_cons, FetchEv.reqBatch]
      rw [ih]
    · rw [if_neg h]
      have hdrop : (a :: rest).drop 50 = [] := List.drop_eq_nil_of_le (by omega)
      rw [hdrop]
      simp [FetchEv.reqBatch, chunks50]

theorem fetchDetailsTrace_pauses {ι : Type} : ∀ l : List ι,
    numPauses (fetchDetailsTrace l) = (chunks50 l).length - 1 := by
  intro l
  induction l using chunks50.induct with
  | case1 => simp [fetchDetailsTrace, chunks50, numPauses]
  | case2 a rest ih =>
    rw [fetchDetailsTrace, chunks50]
    by_cases h : 50 < (a :: rest).length
    · rw [if_pos h]
      have hdrop : (a :: rest).drop 50 ≠ [] := by
        have hld : ((a :: rest).drop 50).length = (a :: rest).length - 50 :=
          List.length_drop _ _
        intro hnil
        rw [hnil] at hld
        simp only [List.length_nil] at hld
        omega
      have hck : chunks50 ((a :: rest).drop 50) ≠ [] := by
        intro hc
        exact hdrop ((chunks50_eq_nil_iff _).mp hc)
      have hl : 1 ≤ (chunks50 ((a :: rest).drop 50)).length := List.length_pos.mpr hck
      simp only [numPauses, List.countP_cons, isPauseEv, List.length_cons] at ih ⊢
      rw [ih]
      simp only [Bool.false_eq_true, if_true, if_false]
      omega
    · rw [if_neg h]
      have hdrop : (a :: rest).drop 50 = [] := List.drop_eq_nil_of_le (by omega)
      rw [hdrop]
      simp [numPauses, isPauseEv, chunks50]

theorem fetchDetailsTrace_pause_shape {ι : Type} : ∀ (l : List ι) (ev : FetchEv ι),
    ev ∈ fetchDetailsTrace l → (FetchEv.reqBatch ev).isSome ∨ ev = FetchEv.sleepPause (1 / 2) := by
  intro l
  induction l using chunks50.induct with
  | case1 => simp [fetchDetailsTrace]
  | case2 a rest ih =>
    intro ev hev
    rw [fetchDetailsTrace] at hev
    by_cases h : 50 < (a :: rest).length
    · rw [if_pos h] at hev
      rcases List.mem_cons.mp hev with rfl | hev2
      · left; simp [FetchEv.reqBatch]
      · rcases List.mem_cons.mp hev2 with rfl | hev3
        · right; rfl
        · exact ih ev hev3
    · rw [if_neg h] at hev
      rcases List.mem_cons.mp hev with rfl | hev2
      · left; simp [FetchEv.reqBatch]
      · simp at hev2

theorem fetch_paper_details_model_eq {ι : Type} (fb : List ι → List PaperResult) :
    ∀ l : List ι, fetch_paper_details_model fb l = ((chunks50 l).map fb).flatten := by
  intro l
  induction l using chunks50.induct with
  | case1 => simp [fetch_paper_details_model, chunks50]
  | case2 a rest ih =>
    rw [fetch_paper_details_model, chunks50]
    simp only [List.map_cons, List.flatten_cons, ih]

theorem flatten_map_filterMap {ι : Type} (f : Article → Option PaperResult)
    (respond : List ι → List Article) :
    ∀ L : List (List ι), ((L.map (fun b => (respond b).filterMap f)).flatten) =
      ((L.map respond).flatten).filterMap f := by
  intro L
  induction L with
  | nil => simp
  | cons b t ih => simp [ih, List.filterMap_append]

/-- Closed form of the pipeline: the kept papers are exactly the parses of the
concatenation of per-batch record lists, in batch order then within-batch
service order. -/
theorem fetch_papers_model_eq {ι : Type} (e : List String → List String)
    (ids : List ι) (respond : List ι → List Article) :
    fetch_papers_model e ids respond =
      (((chunks50 ids).map respond).flatten).filterMap (parse_article e) := by
  unfold fetch_papers_model
  cases ids with
  | nil => simp [chunks50]
  | cons a rest =>
    simp only [List.isEmpty_cons, Bool.false_eq_true, if_false]
    rw [fetch_paper_details_model_eq, flatten_map_filterMap]

/-- A paper in a parse result has a non-empty industry-author list. -/
theorem parse_article_some_nonempty (e : List String → List String) (art : Article)
    (p : PaperResult) (h : parse_article e art = some p) :
    p.non_academic_authors ≠ [] := by
  unfold parse_article at h
  cases hp : art.pmid with
  | none => rw [hp] at h; exact absurd h (by simp)
  | some t =>
    rw [hp] at h
    simp only at h
    split at h
    · exact absurd h (by simp)
    · rename_i hne
      have := (Option.some_inj.mp h).symm
      rw [this]
      simpa using hne

/-- Closed form of `parse_article` through the loop characterization. -/
theorem parse_article_char (e : List String → List String) (art : Article) :
    parse_article e art =
      match art.pmid with
      | none => none
      | some pmidText =>
        if ((extract_authors art.authorList).filter authorQualifies) = [] then none
        else
          some ⟨pmidText,
            (match art.articleTitle with | some t => t | none => some "No title"),
            extract_publication_date art.dates,
            extract_authors art.authorList,
            ((extract_authors art.authorList).filter authorQualifies).map Author.name,
            e (((extract_authors art.authorList).filter authorQualifies).map
              (fun a => a.affiliation.getD "")),
            corrFold (extract_authors art.authorList) none⟩ := by
  cases hp : art.pmid with
  | none => simp [parse_article, hp]
  | some t =>
    simp only [parse_article, hp, foldl_parseStep, List.nil_append, List.map_eq_nil_iff]

theorem parse_article_none_pmid (e : List String → List String) (art : Article)
    (h : art.pmid = none) : parse_article e art = none := by
  rw [parse_article_char, h]

theorem parse_article_none_kept (e : List String → List String) (art : Article)
    (t : Option String) (hp : art.pmid = some t)
    (hk : (extract_authors art.authorList).filter authorQualifies = []) :
    parse_article e art = none := by
  rw [parse_article_char, hp]
  simp [hk]

theorem parse_article_some_kept (e : List String → List String) (art : Article)
    (t : Option String) (hp : art.pmid = some t)
    (hk : (extract_authors art.authorList).filter authorQualifies ≠ []) :
    parse_article e art =
      some ⟨t, (match art.articleTitle with | some ti => ti | none => some "No title"),
        extract_publication_date art.dates, extract_authors art.authorList,
        ((extract_authors art.authorList).filter authorQualifies).map Author.name,
        e (((extract_authors art.authorList).filter authorQualifies).map
          (fun a => a.affiliation.getD "")),
        corrFold (extract_authors art.authorList) none⟩ := by
  rw [parse_article_char, hp]
  simp [hk]

theorem chunks50_of_small {ι : Type} (l : List ι) (hne : l ≠ []) (hle : l.length ≤ 50) :
    chunks50 l = [l] := by
  cases l with
  | nil => exact absurd rfl hne
  | cons a rest =>
    rw [chunks50, List.take_of_length_le hle, List.drop_eq_nil_of_le hle]
    simp [chunks50]

theorem chunks50_pair {ι : Type} (l : List ι) (h1 : 50 < l.length) (h2 : l.length ≤ 100) :
    chunks50 l = [l.take 50, l.drop 50] := by
  cases l with
  | nil => simp at h1
  | cons a rest =>
    rw [chunks50]
    congr 1
    apply chunks50_of_small
    · intro h
      have hld := List.length_drop 50 (a :: rest)
      rw [h] at hld
      simp only [List.length_nil] at hld
      omega
    · rw [List.length_drop]
      omega

theorem numBatchReqs_trace {ι : Type} : ∀ l : List ι,
    numBatchReqs (fetchDetailsTrace l) = (chunks50 l).length := by
  intro l
  induction l using chunks50.induct with
  | case1 => simp [fetchDetailsTrace, chunks50, numBatchReqs]
  | case2 a rest ih =>
    rw [fetchDetailsTrace, chunks50]
    by_cases h : 50 < (a :: rest).length
    · rw [if_pos h]
      simp only [numBatchReqs, List.countP_cons, FetchEv.reqBatch, List.length_cons] at ih ⊢
      rw [ih]
      simp
    · rw [if_neg h]
      have hdrop : (a :: rest).drop 50 = [] := List.drop_eq_nil_of_le (by omega)
      rw [hdrop]
      simp [numBatchReqs, FetchEv.reqBatch, chunks50]

theorem fetch_paper_details_model_small {ι : Type} (fb : List ι → List PaperResult)
    (l : List ι) (hne : l ≠ []) (hle : l.length ≤ 50) :
    fetch_paper_details_model fb l = fb l := by
  rw [fetch_paper_details_model_eq, chunks50_of_small l hne hle]
  simp

theorem fetch_papers_model_small {ι : Type} (e : List String → List String)
    (l : List ι) (respond : List ι → List Article) (hne : l ≠ []) (hle : l.length ≤ 50) :
    fetch_papers_model e l respond = (respond l).filterMap (parse_article e) := by
  rw [fetch_papers_model_eq, chunks50_of_small l hne hle]
  simp

/-- Equality of two papers up to the enumeration order of the deduplicated
industry affiliations. -/
def SameUpToCompanyOrder (p q : PaperResult) : Prop :=
  p.pubmed_id = q.pubmed_id ∧ p.title = q.title ∧
  p.publication_date = q.publication_date ∧ p.authors = q.authors ∧
  p.non_academic_authors = q.non_academic_authors ∧
  List.Perm p.company_affiliations q.company_affiliations ∧
  p.corresponding_author_email = q.corresponding_author_email

theorem parse_article_rel (e1 e2 : List String → List String) (h1 : ValidSetEnum e1)
    (h2 : ValidSetEnum e2) (art : Article) :
    (parse_article e1 art = none ∧ parse_article e2 art = none) ∨
    (∃ p q, parse_article e1 art = some p ∧ parse_article e2 art = some q ∧
      SameUpToCompanyOrder p q) := by
  cases hp : art.pmid with
  | none =>
    exact Or.inl ⟨parse_article_none_pmid e1 art hp, parse_article_none_pmid e2 art hp⟩
  | some t =>
    by_cases hk : (extract_authors art.authorList).filter authorQualifies = []
    · exact Or.inl ⟨parse_article_none_kept e1 art t hp hk,
        parse_article_none_kept e2 art t hp hk⟩
    · exact Or.inr ⟨_, _, parse_article_some_kept e1 art t hp hk,
        parse_article_some_kept e2 art t hp hk,
        rfl, rfl, rfl, rfl, rfl, (h1 _).trans ((h2 _).symm), rfl⟩

theorem filterMap_parse_rel (e1 e2 : List String → List String) (h1 : ValidSetEnum e1)
    (h2 : ValidSetEnum e2) : ∀ arts : List Article,
    List.Forall₂ SameUpToCompanyOrder (arts.filterMap (parse_article e1))
      (arts.filterMap (parse_article e2)) := by
  intro arts
  induction arts with
  | nil =>
    simp only [List.filterMap_nil]
    exact List.Forall₂.nil
  | cons a t ih =>
    rcases parse_article_rel e1 e2 h1 h2 a with ⟨hn1, hn2⟩ | ⟨p, q, hs1, hs2, hrel⟩
    · simp only [List.filterMap_cons, hn1, hn2]
      exact ih
    · simp only [List.filterMap_cons, hs1, hs2]
      exact List.Forall₂.cons hrel ih

/-! ### Remaining claims -/

/-- Claim C1: `_parse_article` returns `none` when the industry-author
collection is empty after classifying the extracted authors, so every paper a
parse produces — and hence every paper the pipeline keeps — has a non-empty
`non_academic_authors`. -/
theorem claim_C1 (e : List String → List String) (art : Article) :
    ((extract_authors art.authorList).filter authorQualifies = [] →
      parse_article e art = none) ∧
    (∀ p, parse_article e art = some p → p.non_academic_authors ≠ []) ∧
    (∀ (ι : Type) (ids : List ι) (respond : List ι → List Article) (p : PaperResult),
      p ∈ fetch_papers_model e ids respond → p.non_academic_authors ≠ []) := by
  refine ⟨?_, ?_, ?_⟩
  · intro hk
    cases hp : art.pmid with
    | none => exact parse_article_none_pmid e art hp
    | some t => exact parse_article_none_kept e art t hp hk
  · intro p hp
    exact parse_article_some_nonempty e art p hp
  · intro ι ids respond p hp
    rw [fetch_papers_model_eq] at hp
    obtain ⟨a, _, ha⟩ := List.mem_filterMap.mp hp
    exact parse_article_some_nonempty e a p ha

def artC1 : Article :=
  ⟨some (some "12345"), some (some "Title"), ⟨none, none, none⟩,
   some [⟨some (some "Smith"), some (some "John"), none, some (some "Pfizer Inc")⟩]⟩

def paperC1 : PaperResult :=
  ⟨some "12345", some "Title", none,
   [⟨some "John Smith", some "Pfizer Inc", none, false⟩],
   [some "John Smith"], ["Pfizer Inc"], none⟩

/-- Witness for C1: a concrete parsed paper with its single industry author. -/
theorem claim_C1_witness : paperC1.non_academic_authors ≠ [] :=
  (claim_C1 List.dedup artC1).2.1 paperC1 (by decide)

/-- Claim C3: error propagation has exactly two tiers. A per-article error
inside a batch drops that article and the loop continues with the rest; a
transport failure or a top-level response-parse failure of a search or batch
request is wrapped and re-raised to the caller, not retried and not skipped. -/
theorem claim_C3 {α : Type} :
    (∀ (msg : String) (parseResp : String → Except String (List α))
        (p : α → Except String (Option PaperResult)),
      fetch_batch_details (Except.error msg) parseResp p =
        Except.error ("Error fetching paper details: " ++ msg)) ∧
    (∀ (body msg : String) (parseResp : String → Except String (List α))
        (p : α → Except String (Option PaperResult)),
      parseResp body = Except.error msg →
      fetch_batch_details (Except.ok body) parseResp p =
        Except.error ("Error parsing paper details: " ++ msg)) ∧
    (∀ (p : α → Except String (Option PaperResult)) (pre post : List α) (a : α)
        (msg : String),
      p a = Except.error msg →
      processBatchItems p (pre ++ a :: post) =
        processBatchItems p pre ++ processBatchItems p post) ∧
    (∀ (body : String) (parseResp : String → Except String (List α))
        (p : α → Except String (Option PaperResult)) (pre post : List α) (a : α)
        (msg : String),
      parseResp body = Except.ok (pre ++ a :: post) → p a = Except.error msg →
      fetch_batch_details (Except.ok body) parseResp p =
        Except.ok (processBatchItems p pre ++ processBatchItems p post)) ∧
    (∀ (msg : String) (parseResp : String → Except String SearchResp),
      search_papers (Except.error msg) parseResp =
        Except.error ("Error searching PubMed: " ++ msg)) ∧
    (∀ (body msg : String) (parseResp : String → Except String SearchResp),
      parseResp body = Except.error msg →
      search_papers (Except.ok body) parseResp =
        Except.error ("Error parsing search results: " ++ msg)) := by
  refine ⟨fun msg parseResp p => rfl, ?_, ?_, ?_, fun msg parseResp => rfl, ?_⟩
  · intro body msg parseResp p h
    simp [fetch_batch_details, h]
  · intro p pre post a msg h
    rw [processBatchItems_append]
    congr 1
    simp [processBatchItems, h]
  · intro body parseResp p pre post a msg hresp hp
    simp only [fetch_batch_details, hresp]
    rw [processBatchItems_append]
    simp [processBatchItems, hp]
  · intro body msg parseResp h
    simp [search_papers, h]

def paperDemo : PaperResult :=
  ⟨some "1", some "T", none, [], [some "A"], ["Pfizer"], none⟩

def pDemo : Nat → Except String (Option PaperResult) :=
  fun n => if n = 0 then Except.error "boom" else Except.ok (some paperDemo)

/-- Witness for C3: with a parser that raises on article 0, the batch keeps
the surrounding articles, while batch-level failures abort the whole call. -/
theorem claim_C3_witness :
    processBatchItems pDemo ([1] ++ 0 :: [2]) =
      processBatchItems pDemo [1] ++ processBatchItems pDemo [2] ∧
    fetch_batch_details (Except.ok "body") (fun _ => Except.ok ([1] ++ 0 :: [2])) pDemo =
      Except.ok (processBatchItems pDemo [1] ++ processBatchItems pDemo [2]) ∧
    fetch_batch_details (Except.ok "body")
        (fun _ => Except.error "parse fail") pDemo =
      Except.error ("Error parsing paper details: " ++ "parse fail") :=
  ⟨(claim_C3 (α := Nat)).2.2.1 pDemo [1] [2] 0 "boom" rfl,
   (claim_C3 (α := Nat)).2.2.2.1 "body" _ pDemo [1] [2] 0 "boom" rfl rfl,
   (claim_C3 (α := Nat)).2.1 "body" "parse fail" _ pDemo rfl⟩

/-- Claim C4: an empty identifier list issues no request and returns empty;
otherwise the loop visits consecutive slices of fixed size 50 (last possibly
smaller, none empty, all but the last exactly 50), issues one request per
slice, and sleeps half a second between consecutive batches and never after
the last — 50 identifiers give one batch and no pause, 51 give two batches
and one pause. -/
theorem claim_C4 {ι : Type} :
    (∀ fb : List ι → List PaperResult, fetch_paper_details_model fb [] = []) ∧
    (fetchDetailsTrace ([] : List ι) = []) ∧
    (∀ ids : List ι, (fetchDetailsTrace ids).filterMap FetchEv.reqBatch = chunks50 ids) ∧
    (∀ ids : List ι, (chunks50 ids).flatten = ids) ∧
    (∀ ids : List ι, ∀ b ∈ chunks50 ids, b ≠ [] ∧ b.length ≤ 50) ∧
    (∀ (ids : List ι) (i : Nat), i + 1 < (chunks50 ids).length →
      ((chunks50 ids).getD i []).length = 50) ∧
    (∀ ids : List ι, numPauses (fetchDetailsTrace ids) = (chunks50 ids).length - 1) ∧
    (∀ (ids : List ι) (ev : FetchEv ι), ev ∈ fetchDetailsTrace ids →
      (FetchEv.reqBatch ev).isSome ∨ ev = FetchEv.sleepPause (1 / 2)) ∧
    (∀ ids : List ι, ids.length = 50 →
      numBatchReqs (fetchDetailsTrace ids) = 1 ∧ numPauses (fetchDetailsTrace ids) = 0) ∧
    (∀ ids : List ι, ids.length = 51 →
      numBatchReqs (fetchDetailsTrace ids) = 2 ∧ numPauses (fetchDetailsTrace ids) = 1) := by
  refine ⟨fun fb => by simp [fetch_paper_details_model], by simp [fetchDetailsTrace],
    fetchDetailsTrace_reqs, chunks50_flatten, chunks50_mem, chunks50_getD_length,
    fetchDetailsTrace_pauses, fetchDetailsTrace_pause_shape, ?_, ?_⟩
  · intro ids h
    have hne : ids ≠ [] := by
      intro hnil
      rw [hnil] at h
      simp at h
    have hc := chunks50_of_small ids hne (by omega)
    rw [numBatchReqs_trace, fetchDetailsTrace_pauses, hc]
    exact ⟨rfl, rfl⟩
  · intro ids h
    have hc := chunks50_pair ids (by omega) (by omega)
    rw [numBatchReqs_trace, fetchDetailsTrace_pauses, hc]
    exact ⟨rfl, rfl⟩

/-- Witness for C4 at a concrete 51-identifier list. -/
theorem claim_C4_witness :
    (numBatchReqs (fetchDetailsTrace (List.replicate 51 (0 : Nat))) = 2 ∧
      numPauses (fetchDetailsTrace (List.replicate 51 (0 : Nat))) = 1) ∧
    ((chunks50 (List.replicate 51 (0 : Nat))).getD 0 []).length = 50 :=
  ⟨(claim_C4 (ι := Nat)).2.2.2.2.2.2.2.2.2 (List.replicate 51 0) (by simp),
   (claim_C4 (ι := Nat)).2.2.2.2.2.1 (List.replicate 51 0) 0
     (by rw [chunks50_pair _ (by simp) (by simp)]; simp)⟩

/-- Claim C7 (amended): `company_affiliations` is deduplicated (no duplicate
entries, in whatever order the set enumeration produces), but
`non_academic_authors` is NOT deduplicated: it holds one entry per qualifying
author in encounter order, so two qualifying authors with the same name leave
a duplicate name. -/
theorem claim_C7_amended (e : List String → List String) (he : ValidSetEnum e)
    (art : Article) (p : PaperResult) (h : parse_article e art = some p) :
    p.company_affiliations.Nodup ∧
    p.non_academic_authors =
      ((extract_authors art.authorList).filter authorQualifies).map Author.name := by
  cases hp : art.pmid with
  | none => exact absurd (parse_article_none_pmid e art hp ▸ h) (by simp)
  | some t =>
    by_cases hk : (extract_authors art.authorList).filter authorQualifies = []
    · exact absurd (parse_article_none_kept e art t hp hk ▸ h) (by simp)
    · rw [parse_article_some_kept e art t hp hk] at h
      have hrec := Option.some_inj.mp h
      constructor
      · rw [← hrec]
        exact ((he _).symm).nodup (List.nodup_dedup _)
      · rw [← hrec]

def artC7 : Article :=
  ⟨some (some "77"), some (some "T"), ⟨none, none, none⟩,
   some [⟨some (some "Smith"), some (some "John"), none, some (some "Pfizer Inc")⟩,
         ⟨some (some "Smith"), some (some "John"), none, some (some "Pfizer Inc")⟩]⟩

def paperC7 : PaperResult :=
  ⟨some "77", some "T", none,
   [⟨some "John Smith", some "Pfizer Inc", none, false⟩,
    ⟨some "John Smith", some "Pfizer Inc", none, false⟩],
   [some "John Smith", some "John Smith"], ["Pfizer Inc"], none⟩

/-- Counterexample to C7 as stated: two qualifying authors with the same name
leave `non_academic_authors` with a duplicate entry — only
`company_affiliations` passes through `list(set(...))`. -/
theorem claim_C7_counterexample :
    parse_article List.dedup artC7 = some paperC7 ∧
    ¬ paperC7.non_academic_authors.Nodup := by
  refine ⟨by decide, by decide⟩

/-- Witness for C7 on a concrete parse. -/
theorem claim_C7_witness :
    paperC7.company_affiliations.Nodup ∧
    paperC7.non_academic_authors =
      ((extract_authors artC7.authorList).filter authorQualifies).map Author.name :=
  claim_C7_amended List.dedup (fun l => List.Perm.refl l.dedup) artC7 paperC7 (by decide)

/-- Claim C8: the pipeline returns empty immediately on an empty identifier
list, issuing no detail request; otherwise the kept papers are exactly the
parses of the concatenated per-batch record lists — batch order, then
within-batch service order — with no re-sorting. -/
theorem claim_C8 {ι : Type} (e : List String → List String)
    (respond : List ι → List Article) :
    (fetch_papers_model e ([] : List ι) respond = []) ∧
    (fetchDetailsTrace ([] : List ι) = []) ∧
    (∀ ids : List ι, fetch_papers_model e ids respond =
      (((chunks50 ids).map respond).flatten).filterMap (parse_article e)) :=
  ⟨rfl, by simp [fetchDetailsTrace], fun ids => fetch_papers_model_eq e ids respond⟩

/-- Claim C9 (amended): with the upstream responses fixed, the pipeline is
deterministic up to the enumeration order that `list(set(...))` gives the
deduplicated `company_affiliations` (Python string hashing is randomized per
process): two runs under any two admissible set orders produce the same papers
in the same order, equal field-by-field except that their
`company_affiliations` are permutations of each other. Within one fixed
enumeration (one process) the output is literally identical. -/
theorem claim_C9_amended {ι : Type} (e1 e2 : List String → List String)
    (h1 : ValidSetEnum e1) (h2 : ValidSetEnum e2) (ids : List ι)
    (respond : List ι → List Article) :
    List.Forall₂ SameUpToCompanyOrder (fetch_papers_model e1 ids respond)
      (fetch_papers_model e2 ids respond) := by
  rw [fetch_papers_model_eq, fetch_papers_model_eq]
  exact filterMap_parse_rel e1 e2 h1 h2 _

def revDedup : List String → List String := fun l => (List.dedup l).reverse

def artC9 : Article :=
  ⟨some (some "9"), some (some "T"), ⟨none, none, none⟩,
   some [⟨some (some "Smith"), some (some "John"), none, some (some "Pfizer Inc")⟩,
         ⟨some (some "Doe"), some (some "Jane"), none, some (some "Novartis Pharma")⟩]⟩

def respondC9 : List (Option String) → List Article := fun _ => [artC9]

/-- Counterexample to C9 as stated: both enumerations below are admissible
orders of `list(set(...))` over the company affiliations arising in this run
(they are permutations of the same deduplication lists), yet the emitted rows
differ byte-wise in the joined Company Affiliation(s) field — so the mapping
from response contents to output bytes is not a function independent of the
process (the set order depends on per-process randomized string hashing). -/
theorem claim_C9_counterexample :
    List.Perm (revDedup ["Pfizer Inc", "Novartis Pharma"])
      (List.dedup ["Pfizer Inc", "Novartis Pharma"]) ∧
    (fetch_papers_model List.dedup [some "1"] respondC9).map to_csv_row ≠
      (fetch_papers_model revDedup [some "1"] respondC9).map to_csv_row := by
  constructor
  · decide
  · have hA := fetch_papers_model_small (ι := Option String) List.dedup [some "1"]
      respondC9 (by simp) (by simp)
    have hB := fetch_papers_model_small (ι := Option String) revDedup [some "1"]
      respondC9 (by simp) (by simp)
    rw [hA, hB]
    decide

/-- Witness for C9 on a concrete run under two admissible set orders. -/
theorem claim_C9_witness :
    List.Forall₂ SameUpToCompanyOrder
      (fetch_papers_model List.dedup [some "1"] respondC9)
      (fetch_papers_model revDedup [some "1"] respondC9) :=
  claim_C9_amended List.dedup revDedup (fun l => List.Perm.refl l.dedup)
    (fun l => List.reverse_perm l.dedup) [some "1"] respondC9

/-- Claim C10: a successful search yields one entry per `Id` element of the
`IdList` in document order, an `Id` without text contributing a `none` entry
rather than being skipped or raising — the public result is a list of
optional strings, not guaranteed all strings. -/
theorem claim_C10 (parseResp : String → Except String SearchResp) (body : String)
    (resp : SearchResp) (idl : List IdElem) (hp : parseResp body = Except.ok resp)
    (hl : resp.idList = some idl) :
    search_papers (Except.ok body) parseResp = Except.ok (idl.map IdElem.text) ∧
    (idl.map IdElem.text).length = idl.length ∧
    (∀ k : Nat, (idl.map IdElem.text)[k]? = (idl[k]?).map IdElem.text) ∧
    (∀ el ∈ idl, el.text = none → (none : Option String) ∈ idl.map IdElem.text) := by
  refine ⟨?_, by simp, ?_, ?_⟩
  · simp [search_papers, hp, hl]
  · intro k
    simp [List.getElem?_map]
  · intro el hel htext
    exact List.mem_map.mpr ⟨el, hel, htext⟩

def searchRespDemo : SearchResp := ⟨some [⟨some "12345"⟩, ⟨none⟩, ⟨some "67890"⟩]⟩

/-- Witness for C10 on a concrete response: ids in document order, with an
empty `Id` contributing `none`. -/
theorem claim_C10_witness :
    search_papers (Except.ok "") (fun _ => Except.ok searchRespDemo) =
      Except.ok [some "12345", none, some "67890"] ∧
    (none : Option String) ∈ [some "12345", (none : Option String), some "67890"] :=
  ⟨(claim_C10 (fun _ => Except.ok searchRespDemo) "" searchRespDemo _ rfl rfl).1,
   (claim_C10 (fun _ => Except.ok searchRespDemo) "" searchRespDemo _ rfl rfl).2.2.2
     ⟨none⟩ (by decide) rfl⟩

end PubMedFetcher
